import Mathlib

/-!
Verification development for the nodestract interpreter
(HawkStract/nodestract, Rust sources under src/).

Shallow embedding conventions:
* Rust String / &str values are modelled as List Char (named Str below), so
  that character-level operations (split on a separator, prefix tests,
  hex decoding) are plain structural recursion.
* Rust i64 is modelled as Int; arithmetic overflow aborts (Rust debug-profile
  semantics) and is marked explicitly where it matters.
* The aes_gcm crate (Aes256Gcm), the process environment lookup in get_key,
  the thread_rng nonce draw, and UTF-8 encoding/decoding of plaintext are
  external library code, not part of this repository; they are abstracted as
  a VaultCtx record of an AEAD pair plus the nonce that the RNG supplies.
  Everything of src/src/interpreter.rs around them (envelope formatting,
  splitting, hex, length checks, sentinel strings) is embedded directly.
* f64 (Value::Float, Expression::LiteralNum fractional case) is floating
  point and outside the embedding; the Float constructor and the arms that
  only it can reach are omitted, each omission is noted at the definition.
-/

namespace Nodestract

/-- Rust strings are modelled as lists of characters. -/
abbrev Str := List Char

/-- Shorthand to write a modelled Rust string from a Lean string literal. -/
def str (s : String) : Str := s.toList

/-- Rust str::split on a single separator character (used with ':' in
decrypt_vault and with '.' in handle_function_call).  Like Rust's split it
always returns at least one part, and an empty input yields one empty part. -/
def rustSplit (sep : Char) : Str → List Str
  | [] => [[]]
  | c :: rest =>
    if c = sep then
      [] :: rustSplit sep rest
    else
      (c :: (rustSplit sep rest).headD []) :: (rustSplit sep rest).tail

/-- Hex digit for a value below 16, lowercase as produced by hex::encode. -/
def hexDigitChar : Nat → Char
  | 0 => '0' | 1 => '1' | 2 => '2' | 3 => '3' | 4 => '4'
  | 5 => '5' | 6 => '6' | 7 => '7' | 8 => '8' | 9 => '9'
  | 10 => 'a' | 11 => 'b' | 12 => 'c' | 13 => 'd' | 14 => 'e'
  | _ => 'f'

/-- hex::encode of a byte sequence: two lowercase hex digits per byte. -/
def hex_encode : List Nat → Str
  | [] => []
  | b :: rest => hexDigitChar (b / 16) :: hexDigitChar (b % 16) :: hex_encode rest

/-- Numeric value of one hex digit; hex::decode accepts both cases. -/
def hexDigitVal (c : Char) : Option Nat :=
  if c = '0' then some 0 else if c = '1' then some 1 else if c = '2' then some 2
  else if c = '3' then some 3 else if c = '4' then some 4 else if c = '5' then some 5
  else if c = '6' then some 6 else if c = '7' then some 7 else if c = '8' then some 8
  else if c = '9' then some 9 else if c = 'a' ∨ c = 'A' then some 10
  else if c = 'b' ∨ c = 'B' then some 11 else if c = 'c' ∨ c = 'C' then some 12
  else if c = 'd' ∨ c = 'D' then some 13 else if c = 'e' ∨ c = 'E' then some 14
  else if c = 'f' ∨ c = 'F' then some 15 else none

/-- hex::decode: fails on an odd number of digits or a non-hex character. -/
def hex_decode_checked : Str → Option (List Nat)
  | [] => some []
  | [_] => none
  | c1 :: c2 :: rest => do
    let d1 ← hexDigitVal c1
    let d2 ← hexDigitVal c2
    let bs ← hex_decode_checked rest
    pure ((16 * d1 + d2) :: bs)

/-- hex::decode(..).unwrap_or_default() as used by decrypt_vault
(interpreter.rs lines 134-135): a failed decode becomes the empty byte
sequence. -/
def hex_decode (s : Str) : List Nat :=
  (hex_decode_checked s).getD []

/-- Abstraction of the external cryptographic collaborators of
encrypt_vault / decrypt_vault (interpreter.rs lines 95-145): the Aes256Gcm
cipher keyed by get_key, together with the nonce that rand::thread_rng
supplies for the next encryption.  aeadEnc also absorbs str::as_bytes and
aeadDec absorbs String::from_utf8 of the recovered plaintext (the source
distinguishes the sentinels ERROR_DECRYPT and ERROR_UTF8 for the two ways
that composite can fail; the abstraction folds them into one failure). -/
structure VaultCtx where
  nonce : List Nat
  aeadEnc : List Nat → Str → Option (List Nat)
  aeadDec : List Nat → List Nat → Option Str

/-- Interpreter::encrypt_vault (interpreter.rs lines 105-122): encrypt the
display form of a value and wrap nonce and ciphertext in the
ENC:nonce-hex:ciphertext-hex envelope; a cipher failure yields the
ERROR_ENCRYPT sentinel. -/
def encrypt_vault (ctx : VaultCtx) (val : Str) : Str :=
  match ctx.aeadEnc ctx.nonce val with
  | some ciphertext =>
      str "ENC:" ++ hex_encode ctx.nonce ++ str ":" ++ hex_encode ciphertext
  | none => str "ERROR_ENCRYPT"

/-- Interpreter::decrypt_vault (interpreter.rs lines 124-145): split the
envelope on ':', demand exactly three parts, hex-decode nonce and
ciphertext, demand a 12-byte nonce, then decrypt; each failure resolves to
its sentinel string.  Note the tag part is never compared against "ENC". -/
def decrypt_vault (ctx : VaultCtx) (val : Str) : Str :=
  let parts := rustSplit ':' val
  if parts.length ≠ 3 then str "ERROR_FORMAT"
  else
    let nonce_bytes := hex_decode (parts.getD 1 [])
    let ciphertext := hex_decode (parts.getD 2 [])
    if nonce_bytes.length ≠ 12 then str "ERROR_NONCE"
    else
      match ctx.aeadDec nonce_bytes ciphertext with
      | some plaintext => plaintext
      | none => str "ERROR_DECRYPT"

/-! Runtime values (src/src/value.rs).  The Float(f64) constructor is
floating point and outside the embedding; every match arm reachable only
through it is omitted below with a note. -/

/-- Value (value.rs lines 4-13), minus the Float constructor (see above).
A Rust HashMap of string keys is modelled as an association list with
unique keys, built by mapInsert; its iteration order (relevant only to the
Display form of a map) is the list order. -/
inductive Value where
  | Null : Value
  | Boolean (b : Bool) : Value
  | Integer (i : Int) : Value
  | String (s : Str) : Value
  | Array (elems : List Value) : Value
  | Map (entries : List (Str × Value)) : Value
deriving Repr

/-- Decimal rendering of an i64, as Rust Display for i64 produces it. -/
def intStr (i : Int) : Str := (toString i).toList

mutual

/-- Display for Value (value.rs lines 15-35); the Float arm is omitted.
Map display follows the model's association-list order where the source
iterates a HashMap in unspecified order. -/
def display : Value → Str
  | .Null => str "null"
  | .Boolean true => str "true"
  | .Boolean false => str "false"
  | .Integer i => intStr i
  | .String s => s
  | .Array arr => '[' :: (displayList arr ++ [']'])
  | .Map m => '{' :: (displayPairs m ++ ['}'])

/-- Array elements joined by ", " as in Vec::join. -/
def displayList : List Value → Str
  | [] => []
  | [v] => display v
  | v :: rest => display v ++ str ", " ++ displayList rest

/-- Map entries rendered "key: value" and joined by ", ". -/
def displayPairs : List (Str × Value) → Str
  | [] => []
  | [(k, v)] => k ++ str ": " ++ display v
  | (k, v) :: rest => k ++ str ": " ++ display v ++ str ", " ++ displayPairs rest

end

/-- Escaping applied by the derived Debug formatting of a Rust string.
Only the escapes that concrete inputs of this development can hit are
modelled; Rust additionally escapes other control and some unicode
characters. -/
def debugEscapeChar (c : Char) : Str :=
  if c = '"' then ['\\', '"']
  else if c = '\\' then ['\\', '\\']
  else if c = '\n' then ['\\', 'n']
  else if c = '\t' then ['\\', 't']
  else if c = '\r' then ['\\', 'r']
  else [c]

mutual

/-- Derived Debug formatting of a Value, as printed by the RAM DUMP line of
Sys.memory_dump (interpreter.rs line 384); the Float arm is omitted. -/
def rustDebug : Value → Str
  | .Null => str "Null"
  | .Boolean true => str "Boolean(true)"
  | .Boolean false => str "Boolean(false)"
  | .Integer i => str "Integer(" ++ intStr i ++ [')']
  | .String s => str "String(\"" ++ (s.map debugEscapeChar).flatten ++ str "\")"
  | .Array arr => str "Array([" ++ rustDebugList arr ++ str "])"
  | .Map m => str "Map(\x7b" ++ rustDebugPairs m ++ str "\x7d)"

/-- Debug elements joined by ", ". -/
def rustDebugList : List Value → Str
  | [] => []
  | [v] => rustDebug v
  | v :: rest => rustDebug v ++ str ", " ++ rustDebugList rest

/-- Debug map entries, keys quoted, joined by ", ". -/
def rustDebugPairs : List (Str × Value) → Str
  | [] => []
  | [(k, v)] =>
      str "\"" ++ (k.map debugEscapeChar).flatten ++ str "\": " ++ rustDebug v
  | (k, v) :: rest =>
      str "\"" ++ (k.map debugEscapeChar).flatten ++ str "\": " ++ rustDebug v
        ++ str ", " ++ rustDebugPairs rest

end

/-- Value::is_truthy (value.rs lines 38-48); the Float arm is omitted. -/
def is_truthy : Value → Bool
  | .Null => false
  | .Boolean b => b
  | .Integer i => i ≠ 0
  | .String s => ¬ s.isEmpty
  | .Array a => ¬ a.isEmpty
  | .Map m => ¬ m.isEmpty

/-! Variable store (interpreter.rs lines 10-93).  A scope frame is a
HashMap from name to VarEntry, modelled as an association list with unique
keys; the frame stack Vec has its last (innermost) frame at the list head
here, so Vec::push / Vec::pop / iter().rev() become cons / tail / plain
left-to-right traversal. -/

/-- VarEntry (interpreter.rs lines 10-15). -/
structure VarEntry where
  value : Value
  is_mutable : Bool
  is_secure : Bool
deriving Repr

/-- One scope frame: HashMap from String to VarEntry as association list. -/
abbrev Scope := List (Str × VarEntry)

/-- HashMap::get on a frame. -/
def lookupEntry (scope : Scope) (name : Str) : Option VarEntry :=
  match scope.find? (fun p => p.1 = name) with
  | some p => some p.2
  | none => none

/-- Replacement of the entry under an existing key, as assignment through
HashMap::get_mut performs. -/
def scopeSet (scope : Scope) (name : Str) (entry : VarEntry) : Scope :=
  scope.map (fun p => if p.1 = name then (p.1, entry) else p)

/-- HashMap::insert: replace the entry if the key exists, otherwise add the
binding (appended; position in the list is unobservable through lookups). -/
def scopeInsert (name : Str) (entry : VarEntry) (scope : Scope) : Scope :=
  if (lookupEntry scope name).isSome then scopeSet scope name entry
  else scope ++ [(name, entry)]

/-- Innermost-to-outermost search through the frame stack for the entry a
name resolves to; this mirrors the shared loop shape of get_var and
set_var. -/
def lookupVar (scopes : List Scope) (name : Str) : Option VarEntry :=
  match scopes with
  | [] => none
  | scope :: rest =>
    match lookupEntry scope name with
    | some entry => some entry
    | none => lookupVar rest name

/-- Interpreter::get_var (interpreter.rs lines 39-52): innermost-first
search; an entry holding a string that starts with the ENC: tag is
transparently decrypted (the check looks only at the stored string, never
at is_secure); an unbound name yields Null silently. -/
def get_var (ctx : VaultCtx) (scopes : List Scope) (name : Str) : Value :=
  match scopes with
  | [] => .Null
  | scope :: rest =>
    match lookupEntry scope name with
    | some entry =>
      match entry.value with
      | .String s =>
          if (str "ENC:").isPrefixOf s then .String (decrypt_vault ctx s)
          else entry.value
      | _ => entry.value
    | none => get_var ctx rest name

/-- Interpreter::set_var (interpreter.rs lines 54-75): innermost-first
search; assigning to an immutable entry prints a diagnostic and changes
nothing; otherwise the value (re-encrypted when the entry is secure)
replaces the stored one; a name found nowhere prints a not-declared
diagnostic.  The printed diagnostic lines are returned alongside the
updated stack. -/
def set_var (ctx : VaultCtx) (scopes : List Scope) (name : Str) (value : Value) :
    List Scope × Str :=
  match scopes with
  | [] =>
    ([], str "Runtime Error: Variable '" ++ name
          ++ str "' not declared before assignment." ++ ['\n'])
  | scope :: rest =>
    match lookupEntry scope name with
    | some entry =>
      if entry.is_mutable = false then
        (scope :: rest,
         str "Runtime Error: Cannot assign to lock (constant) '" ++ name
           ++ str "'." ++ ['\n'])
      else
        let final_val :=
          if entry.is_secure then Value.String (encrypt_vault ctx (display value))
          else value
        (scopeSet scope name { entry with value := final_val } :: rest, [])
    | none =>
      let r := set_var ctx rest name value
      (scope :: r.1, r.2)

/-- Interpreter::define_var (interpreter.rs lines 77-93): bind into the
innermost frame, encrypting the display form first when is_secure.  The
source takes current_scope() through Vec::last_mut().unwrap(), which
panics on an empty stack; that impossible-by-invariant case is none here. -/
def define_var (ctx : VaultCtx) (scopes : List Scope) (name : Str)
    (value : Value) (im : Bool) (isec : Bool) : Option (List Scope) :=
  match scopes with
  | [] => none
  | scope :: rest =>
    let final_val :=
      if isec then Value.String (encrypt_vault ctx (display value)) else value
    some (scopeInsert name ⟨final_val, im, isec⟩ scope :: rest)

/-- Concrete vault context used to witness the round-trip theorem: a zero
nonce and an invertible stand-in for the AEAD pair. -/
def c3Ctx : VaultCtx where
  nonce := List.replicate 12 0
  aeadEnc := fun _ p => some (p.map Char.toNat)
  aeadDec := fun _ c => some (c.map Char.ofNat)


/-! Abstract syntax (src/src/ast.rs). -/

/-- Expression (ast.rs lines 44-66).  Two departures, both noted:
LiteralNum stores an f64 in the source and eval_expression converts it to
Integer whenever its fractional part is zero (interpreter.rs lines
238-244); only such integer-valued literals are representable here
(LiteralInt), the fractional case being floating point.  The Map
constructor is absent from the ast.rs snapshot in the repository but is
consumed by the interpreter (interpreter.rs lines 249-256) and produced by
the expression parser; it is modelled from the spec: an ordered sequence
of key/expression pairs with string keys. -/
inductive Expression where
  | LiteralStr (s : Str) : Expression
  | LiteralInt (n : Int) : Expression
  | Array (elems : List Expression) : Expression
  | Map (pairs : List (Str × Expression)) : Expression
  | Index (target index : Expression) : Expression
  | Variable (name : Str) : Expression
  | BinaryOp (left : Expression) (op : Str) (right : Expression) : Expression
  | FunctionCall (target : Str) (args : List Expression) : Expression
deriving Repr

/-- Statement (ast.rs lines 3-42); the two bounds of ForStatement are
called startE / endE since end is reserved in Lean. -/
inductive Statement where
  | VarDecl (im isec : Bool) (name : Str) (value : Expression) : Statement
  | Assignment (name : Str) (value : Expression) : Statement
  | IfStatement (cond : Expression) (then_branch : List Statement)
      (else_branch : Option (List Statement)) : Statement
  | WhileStatement (cond : Expression) (body : List Statement) : Statement
  | ForStatement (iter : Str) (startE endE : Expression)
      (body : List Statement) : Statement
  | ReturnStatement (value : Expression) : Statement
  | CapabilityUse (service : Str) (params : List (Str × Str)) : Statement
  | FunctionDecl (name : Str) (params : List Str)
      (body : List Statement) : Statement
  | Expr (e : Expression) : Statement
deriving Repr

/-! Evaluator (src/src/interpreter.rs). -/

/-- Interpreter state (interpreter.rs lines 17-22) plus the two process
streams: output collects every character printed to stdout (println adds a
trailing newline, the IO.input prompt does not), stdin is the sequence of
lines a read can consume.  The innermost frame is the scopes list head. -/
structure InterpSt where
  scopes : List Scope
  capabilities : List Str
  functions : List (Str × Statement)
  last_return : Option Value
  output : List Char
  stdin : List Str

/-- Append one line (text plus newline) to the output, as println does. -/
def println (st : InterpSt) (line : Str) : InterpSt :=
  { st with output := st.output ++ line ++ ['\n'] }

/-- The i64-to-usize cast (as usize) used for array indices
(interpreter.rs line 265): two's-complement reinterpretation, so a
negative index becomes a huge number and always falls out of range. -/
def usizeOfI64 (i : Int) : Nat := (i % (2 ^ 64)).toNat

/-- HashMap::get on an evaluated map value. -/
def mapGet (m : List (Str × Value)) (k : Str) : Option Value :=
  match m.find? (fun p => p.1 = k) with
  | some p => some p.2
  | none => none

/-- HashMap::insert on an evaluated map value: replace the entry if the
key exists, otherwise add the binding. -/
def mapInsert (k : Str) (v : Value) (m : List (Str × Value)) : List (Str × Value) :=
  if (mapGet m k).isSome then m.map (fun p => if p.1 = k then (p.1, v) else p)
  else m ++ [(k, v)]

/-- HashMap::get on the function table. -/
def lookupFn (fns : List (Str × Statement)) (name : Str) : Option Statement :=
  match fns.find? (fun p => p.1 = name) with
  | some p => some p.2
  | none => none

/-- HashMap::insert on the function table. -/
def fnInsert (name : Str) (s : Statement) (fns : List (Str × Statement)) :
    List (Str × Statement) :=
  if (lookupFn fns name).isSome then
    fns.map (fun p => if p.1 = name then (p.1, s) else p)
  else fns ++ [(name, s)]

/-- Smallest i64. -/
def i64Min : Int := -(2 ^ 63)

/-- Largest i64. -/
def i64Max : Int := 2 ^ 63 - 1

/-- Whether an integer is representable as an i64. -/
def fitsI64 (x : Int) : Bool := i64Min ≤ x ∧ x ≤ i64Max

/-- Interpreter::eval_binary_op (interpreter.rs lines 292-333), with the
string operator matched by an if-chain instead of a Rust match and the
arms in source order.  A none result is a Rust panic aborting the process:
division by a zero i64 or the overflowing division i64Min / -1 always
panic, and the +, -, * arms panic exactly on i64 overflow under the debug
profile that cargo builds by default (a release build would wrap instead;
every theorem below constrains these arms only on non-overflowing inputs,
where both profiles agree).  The (Float, Float) arm and the two mixed
promotion arms are omitted: floating point.  Unsupported operator or
operand combinations fall through to Null, never to a panic. -/
def eval_binary_op (left : Value) (op : Str) (right : Value) : Option Value :=
  match left, right with
  | .Integer a, .Integer b =>
    if op = str "+" then
      if fitsI64 (a + b) then some (.Integer (a + b)) else none
    else if op = str "-" then
      if fitsI64 (a - b) then some (.Integer (a - b)) else none
    else if op = str "*" then
      if fitsI64 (a * b) then some (.Integer (a * b)) else none
    else if op = str "/" then
      if b = 0 ∨ (a = i64Min ∧ b = -1) then none
      else some (.Integer (Int.tdiv a b))
    else if op = str ">" then some (.Boolean (decide (a > b)))
    else if op = str "<" then some (.Boolean (decide (a < b)))
    else if op = str "==" then some (.Boolean (decide (a = b)))
    else some .Null
  | .String a, .String b =>
    if op = str "+" then some (.String (a ++ b))
    else if op = str "==" then some (.Boolean (decide (a = b)))
    else some .Null
  | .String a, b =>
    if op = str "+" then some (.String (a ++ display b)) else some .Null
  | a, .String b =>
    if op = str "+" then some (.String (display a ++ b)) else some .Null
  | _, _ => some .Null

/-- The Index evaluation logic (interpreter.rs lines 258-280) applied to
the two evaluated operands: arrays take an integer index cast to usize and
yield Null out of range, maps look the display form of the index up and
yield Null for an absent key, anything else yields Null.  The Float index
arm (f as usize) is omitted: floating point. -/
def indexValue (target : Value) (index : Value) : Value :=
  match target with
  | .Array arr =>
    match index with
    | .Integer i =>
        if usizeOfI64 i < arr.length then arr.getD (usizeOfI64 i) .Null
        else .Null
    | _ => .Null
  | .Map m => (mapGet m (display index)).getD .Null
  | _ => .Null

/-- Conversion of an evaluated for-loop bound to an i64 (interpreter.rs
lines 206-215): integers pass through, anything else becomes 0.  The
Float arm (f as i64) is omitted: floating point. -/
def toI64 : Value → Int
  | .Integer i => i
  | _ => 0

/-- Rust's start..end iteration sequence: start, start+1, ..., end-1,
empty when end <= start. -/
def mkRange (a b : Int) : List Int :=
  (List.range (b - a).toNat).map (fun k => a + Int.ofNat k)

/-- First segment of a qualified call target: target.split('.').next()
.unwrap_or("") from interpreter.rs line 337. -/
def serviceOf (target : Str) : Str := (rustSplit '.' target).headD []

/-- The security-violation diagnostic of interpreter.rs line 340. -/
def securityAlertLine (service target : Str) : Str :=
  str "SECURITY ALERT: Capability '" ++ service ++ str "' blocked for '"
    ++ target ++ str "'. Execution Halted."

/-- The RAM DUMP diagnostic of interpreter.rs line 384. -/
def ramDumpLine (name : Str) (val : Value) : Str :=
  str "[RAM DUMP] Variable '" ++ name ++ str "' -> " ++ rustDebug val

/-- str::trim as applied to the line read by IO.input. -/
def rustTrim (s : Str) : Str :=
  ((s.dropWhile Char.isWhitespace).reverse.dropWhile Char.isWhitespace).reverse

/-- Join of display forms with single spaces, as IO.print emits. -/
def joinSpace : List Str → Str
  | [] => []
  | [s] => s
  | s :: rest => s ++ str " " ++ joinSpace rest

/-- Result of evaluating an expression: a value with the successor state,
or termination of the whole process (exit(1) on a capability violation, or
an arithmetic panic).  The fuel-exhaustion case of the evaluator lives in
an Option around this type and is no behaviour of the program. -/
inductive EvalRes where
  | ok (v : Value) (st : InterpSt) : EvalRes
  | halt (st : InterpSt) : EvalRes

/-- Result of executing a statement. -/
inductive ExecRes where
  | ok (st : InterpSt) : ExecRes
  | halt (st : InterpSt) : ExecRes

/-- Result of evaluating an argument or element list in order. -/
inductive ArgsRes where
  | ok (vs : List Value) (st : InterpSt) : ArgsRes
  | halt (st : InterpSt) : ArgsRes

/-- Result of evaluating map literal pairs in order. -/
inductive PairsRes where
  | ok (m : List (Str × Value)) (st : InterpSt) : PairsRes
  | halt (st : InterpSt) : PairsRes

/-- Result of building a function call frame from parameters and
arguments. -/
inductive FrameRes where
  | ok (frame : Scope) (st : InterpSt) : FrameRes
  | halt (st : InterpSt) : FrameRes

/-! The evaluator recursion.  Each Rust method body is embedded as a
non-recursive "step" function that receives the recursive evaluators it
needs as explicit arguments; a small mutual block below ties the knot with
a fuel argument that every level decrements.  The fuel only bounds
recursion depth: none means the bound was hit and says nothing about the
program.  The list-shaped loops (argument lists, statement blocks, for
iterations) are structural on their lists and consume no fuel, so a fixed
fuel executes any number of loop iterations. -/

/-- Left-to-right evaluation of an expression list (array literal elements
and built-in argument lists), over a given expression evaluator. -/
def evalArgsWith (E : InterpSt → Expression → Option EvalRes) :
    InterpSt → List Expression → Option ArgsRes
  | st, [] => some (.ok [] st)
  | st, e :: rest =>
    match E st e with
    | none => none
    | some (.halt st') => some (.halt st')
    | some (.ok v st1) =>
      match evalArgsWith E st1 rest with
      | none => none
      | some (.halt st') => some (.halt st')
      | some (.ok vs st2) => some (.ok (v :: vs) st2)

/-- Left-to-right evaluation of map literal pairs, inserting each into the
accumulated map as the source inserts into its HashMap (interpreter.rs
lines 249-256); duplicate keys resolve last-write-wins. -/
def evalPairsWith (E : InterpSt → Expression → Option EvalRes) :
    InterpSt → List (Str × Expression) → List (Str × Value) → Option PairsRes
  | st, [], acc => some (.ok acc st)
  | st, (k, e) :: rest, acc =>
    match E st e with
    | none => none
    | some (.halt st') => some (.halt st')
    | some (.ok v st1) => evalPairsWith E st1 rest (mapInsert k v acc)

/-- Construction of the callee frame (interpreter.rs lines 394-408):
parameters beyond the argument list bind Null, extra arguments are never
evaluated. -/
def evalFrameWith (E : InterpSt → Expression → Option EvalRes) :
    InterpSt → List Str → List Expression → Scope → Option FrameRes
  | st, [], _, acc => some (.ok acc st)
  | st, p :: ps, [], acc =>
      evalFrameWith E st ps [] (scopeInsert p ⟨.Null, true, false⟩ acc)
  | st, p :: ps, a :: rest, acc =>
    match E st a with
    | none => none
    | some (.halt st') => some (.halt st')
    | some (.ok v st1) =>
        evalFrameWith E st1 ps rest (scopeInsert p ⟨v, true, false⟩ acc)

/-- Execution of a statement sequence (a block body), over a given
statement executor. -/
def execListWith (X : InterpSt → Statement → Option ExecRes) :
    InterpSt → List Statement → Option ExecRes
  | st, [] => some (.ok st)
  | st, s :: rest =>
    match X st s with
    | none => none
    | some (.halt st') => some (.halt st')
    | some (.ok st1) => execListWith X st1 rest

/-- The for loop of interpreter.rs lines 217-223: the iterator is
re-declared into the current frame (immutable, not secure) before each
pass over the precomputed index sequence; a set pending-return signal
returns out of the statement. -/
def execForWith (X : InterpSt → Statement → Option ExecRes) (ctx : VaultCtx)
    (it : Str) (body : List Statement) :
    InterpSt → List Int → Option ExecRes
  | st, [] => some (.ok st)
  | st, i :: rest =>
    match define_var ctx st.scopes it (.Integer i) false false with
    | none => some (.halt st)
    | some scopes' =>
      match execListWith X { st with scopes := scopes' } body with
      | none => none
      | some (.halt st') => some (.halt st')
      | some (.ok st1) =>
        if st1.last_return.isSome then some (.ok st1)
        else execForWith X ctx it body st1 rest

/-- Interpreter::eval_expression (interpreter.rs lines 235-290), over the
recursive evaluators E (sub-expressions) and H (function calls). -/
def evalStep (E : InterpSt → Expression → Option EvalRes)
    (H : InterpSt → Str → List Expression → Option EvalRes)
    (ctx : VaultCtx) (st : InterpSt) : Expression → Option EvalRes
  | .LiteralStr s => some (.ok (.String s) st)
  | .LiteralInt n => some (.ok (.Integer n) st)
  | .Array es =>
    match evalArgsWith E st es with
    | none => none
    | some (.halt st') => some (.halt st')
    | some (.ok vs st') => some (.ok (.Array vs) st')
  | .Map pairs =>
    match evalPairsWith E st pairs [] with
    | none => none
    | some (.halt st') => some (.halt st')
    | some (.ok m st') => some (.ok (.Map m) st')
  | .Variable name => some (.ok (get_var ctx st.scopes name) st)
  | .Index t i =>
    match E st t with
    | none => none
    | some (.halt st') => some (.halt st')
    | some (.ok tv st1) =>
      match E st1 i with
      | none => none
      | some (.halt st') => some (.halt st')
      | some (.ok iv st2) => some (.ok (indexValue tv iv) st2)
  | .BinaryOp l op r =>
    match E st l with
    | none => none
    | some (.halt st') => some (.halt st')
    | some (.ok lv st1) =>
      match E st1 r with
      | none => none
      | some (.halt st') => some (.halt st')
      | some (.ok rv st2) =>
        match eval_binary_op lv op rv with
        | some v => some (.ok v st2)
        | none => some (.halt st2)
  | .FunctionCall target args => H st target args

/-- Interpreter::handle_function_call (interpreter.rs lines 335-424), over
the recursive evaluators E (arguments) and U (the user-function tail,
call_user below).  A dotted target first passes the capability gate: an
undeclared service prefix other than Sys and Array prints the security
alert and exits the process (exit(1), the halt result) before anything of
the call is evaluated.  The built-in match of the source is an if-chain
here, and its fall-through into the user-function lookup is U. -/
def handleStep (E : InterpSt → Expression → Option EvalRes)
    (U : InterpSt → Str → List Expression → Option EvalRes)
    (ctx : VaultCtx) (st : InterpSt) (target : Str) (args : List Expression) :
    Option EvalRes :=
  if '.' ∈ target then
    let service := serviceOf target
    if ¬ service ∈ st.capabilities ∧ service ≠ str "Sys"
        ∧ service ≠ str "Array" then
      some (.halt (println st (securityAlertLine service target)))
    else if target = str "IO.print" then
      match evalArgsWith E st args with
      | none => none
      | some (.halt st') => some (.halt st')
      | some (.ok vs st1) =>
          some (.ok .Null (println st1 (joinSpace (vs.map display))))
    else if target = str "IO.input" then
      match args with
      | [] =>
        some (.ok (.String (rustTrim (st.stdin.headD [])))
          { st with stdin := st.stdin.tail })
      | p :: _ =>
        match E st p with
        | none => none
        | some (.halt st') => some (.halt st')
        | some (.ok pv st1) =>
          let st2 := { st1 with output := st1.output ++ display pv }
          some (.ok (.String (rustTrim (st2.stdin.headD [])))
            { st2 with stdin := st2.stdin.tail })
    else if target = str "Array.len" then
      match args with
      | [] => some (.ok (.Integer 0) st)
      | a :: _ =>
        match E st a with
        | none => none
        | some (.halt st') => some (.halt st')
        | some (.ok v st1) =>
          match v with
          | .Array arr => some (.ok (.Integer (arr.length : Int)) st1)
          | _ => some (.ok (.Integer 0) st1)
    else if target = str "Array.push" then
      match args with
      | a0 :: a1 :: _ =>
        match E st a0 with
        | none => none
        | some (.halt st') => some (.halt st')
        | some (.ok v0 st1) =>
          match E st1 a1 with
          | none => none
          | some (.halt st') => some (.halt st')
          | some (.ok v1 st2) =>
            match v0 with
            | .Array arr => some (.ok (.Array (arr ++ [v1])) st2)
            | _ => some (.ok .Null st2)
      | _ => some (.ok .Null st)
    else if target = str "Sys.memory_dump" then
      match args with
      | .Variable var_name :: _ =>
        some (.ok .Null
          (println st (ramDumpLine var_name (get_var ctx st.scopes var_name))))
      | _ => some (.ok .Null st)
    else
      U st target args
  else
    U st target args

/-- The user-function tail of handle_function_call (interpreter.rs lines
392-423), over the recursive evaluators E (arguments) and X (body
statements): look the target up in the function table, bind parameters to
arguments evaluated left to right (missing arguments bind Null), push the
frame, run the body, pop the frame, and consume the pending-return signal
as the result (Null if none).  An unknown name evaluates to Null with no
diagnostic.  The source breaks out of the body loop once the signal is
set; running the remaining statements here is equivalent since statement
execution no-ops under a set signal. -/
def callUserStep (E : InterpSt → Expression → Option EvalRes)
    (X : InterpSt → Statement → Option ExecRes)
    (st : InterpSt) (target : Str) (args : List Expression) :
    Option EvalRes :=
  match lookupFn st.functions target with
  | some (.FunctionDecl _ params body) =>
    match evalFrameWith E st params args [] with
    | none => none
    | some (.halt st') => some (.halt st')
    | some (.ok frame st1) =>
      match execListWith X { st1 with scopes := frame :: st1.scopes } body with
      | none => none
      | some (.halt st') => some (.halt st')
      | some (.ok st2) =>
        let st3 := { st2 with scopes := st2.scopes.tail }
        some (.ok (st3.last_return.getD .Null) { st3 with last_return := none })
  | _ => some (.ok .Null st)

/-- The while loop of interpreter.rs lines 194-201, over the recursive
evaluators E (condition), X (body statements) and W (the next loop pass):
re-evaluate the condition before each pass; a set pending-return signal
after the body returns out of the statement. -/
def execWhileStep (E : InterpSt → Expression → Option EvalRes)
    (X : InterpSt → Statement → Option ExecRes)
    (W : InterpSt → Expression → List Statement → Option ExecRes)
    (st : InterpSt) (cond : Expression) (body : List Statement) :
    Option ExecRes :=
  match E st cond with
  | none => none
  | some (.halt st') => some (.halt st')
  | some (.ok cv st1) =>
    if is_truthy cv then
      match execListWith X st1 body with
      | none => none
      | some (.halt st') => some (.halt st')
      | some (.ok st2) =>
        if st2.last_return.isSome then some (.ok st2)
        else W st2 cond body
    else some (.ok st1)

/-- Interpreter::execute_statement (interpreter.rs lines 174-233), over
the recursive evaluators E (expressions), X (nested statements) and W
(while loops).  The pending-return check comes first: with a signal set
every statement is a no-op.  The catch-all arm (CapabilityUse and
FunctionDecl at statement position) does nothing. -/
def execStep (E : InterpSt → Expression → Option EvalRes)
    (X : InterpSt → Statement → Option ExecRes)
    (W : InterpSt → Expression → List Statement → Option ExecRes)
    (ctx : VaultCtx) (st : InterpSt) (s : Statement) : Option ExecRes :=
  if st.last_return.isSome then some (.ok st)
  else
    match s with
    | .VarDecl im isec name value =>
      match E st value with
      | none => none
      | some (.halt st') => some (.halt st')
      | some (.ok v st1) =>
        match define_var ctx st1.scopes name v im isec with
        | some scopes' => some (.ok { st1 with scopes := scopes' })
        | none => some (.halt st1)
    | .Assignment name value =>
      match E st value with
      | none => none
      | some (.halt st') => some (.halt st')
      | some (.ok v st1) =>
        let r := set_var ctx st1.scopes name v
        some (.ok { st1 with scopes := r.1, output := st1.output ++ r.2 })
    | .IfStatement cond tb eb =>
      match E st cond with
      | none => none
      | some (.halt st') => some (.halt st')
      | some (.ok cv st1) =>
        if is_truthy cv then execListWith X st1 tb
        else
          match eb with
          | some es => execListWith X st1 es
          | none => some (.ok st1)
    | .WhileStatement cond body => W st cond body
    | .ForStatement it startE endE body =>
      match E st startE with
      | none => none
      | some (.halt st') => some (.halt st')
      | some (.ok sv st1) =>
        match E st1 endE with
        | none => none
        | some (.halt st') => some (.halt st')
        | some (.ok ev st2) =>
            execForWith X ctx it body st2 (mkRange (toI64 sv) (toI64 ev))
    | .ReturnStatement value =>
      match E st value with
      | none => none
      | some (.halt st') => some (.halt st')
      | some (.ok v st1) => some (.ok { st1 with last_return := some v })
    | .Expr e =>
      match E st e with
      | none => none
      | some (.halt st') => some (.halt st')
      | some (.ok _ st1) => some (.ok st1)
    | .CapabilityUse _ _ => some (.ok st)
    | .FunctionDecl _ _ _ => some (.ok st)

mutual

/-- Interpreter::eval_expression, fuel-indexed (body in evalStep). -/
def eval : Nat → VaultCtx → InterpSt → Expression → Option EvalRes
  | 0, _, _, _ => none
  | fuel + 1, ctx, st, e =>
    evalStep (eval fuel ctx) (handle_function_call fuel ctx) ctx st e

/-- Interpreter::handle_function_call, fuel-indexed (body in handleStep). -/
def handle_function_call :
    Nat → VaultCtx → InterpSt → Str → List Expression → Option EvalRes
  | 0, _, _, _, _ => none
  | fuel + 1, ctx, st, target, args =>
    handleStep (eval fuel ctx) (call_user fuel ctx) ctx st target args

/-- The user-function tail of handle_function_call, fuel-indexed (body in
callUserStep). -/
def call_user : Nat → VaultCtx → InterpSt → Str → List Expression → Option EvalRes
  | 0, _, _, _, _ => none
  | fuel + 1, ctx, st, target, args =>
    callUserStep (eval fuel ctx) (exec fuel ctx) st target args

/-- Interpreter::execute_statement, fuel-indexed (body in execStep). -/
def exec : Nat → VaultCtx → InterpSt → Statement → Option ExecRes
  | 0, _, _, _ => none
  | fuel + 1, ctx, st, s =>
    execStep (eval fuel ctx) (exec fuel ctx) (execWhile fuel ctx) ctx st s

/-- The while loop, fuel-indexed (body in execWhileStep). -/
def execWhile : Nat → VaultCtx → InterpSt → Expression → List Statement → Option ExecRes
  | 0, _, _, _, _ => none
  | fuel + 1, ctx, st, cond, body =>
    execWhileStep (eval fuel ctx) (exec fuel ctx) (execWhile fuel ctx) st cond body

end

/-- The registration pass of Interpreter::run (interpreter.rs lines
148-161): capability declarations extend the capability list, function
declarations enter the function table, top-level variable declarations
execute immediately, everything else is skipped. -/
def register (fuel : Nat) (ctx : VaultCtx) (st : InterpSt) :
    List Statement → Option ExecRes
  | [] => some (.ok st)
  | s :: rest =>
    match s with
    | .CapabilityUse service _ =>
        register fuel ctx
          { st with capabilities := st.capabilities ++ [service] } rest
    | .FunctionDecl _ _ _ =>
        match s with
        | .FunctionDecl name _ _ =>
            register fuel ctx
              { st with functions := fnInsert name s st.functions } rest
        | _ => register fuel ctx st rest
    | .VarDecl _ _ _ _ =>
      match exec fuel ctx st s with
      | none => none
      | some (.halt st') => some (.halt st')
      | some (.ok st1) => register fuel ctx st1 rest
    | _ => register fuel ctx st rest

/-- Interpreter::run (interpreter.rs lines 147-172): registration over the
whole program, then the body of the function named main executes in the
global frame; a missing main prints a runtime error; a main entry that is
not a function declaration silently does nothing. -/
def run (fuel : Nat) (ctx : VaultCtx) (program : List Statement)
    (stdin : List Str) : Option ExecRes :=
  let st0 : InterpSt := ⟨[[]], [], [], none, [], stdin⟩
  match register fuel ctx st0 program with
  | none => none
  | some (.halt st) => some (.halt st)
  | some (.ok st) =>
    match lookupFn st.functions (str "main") with
    | some (.FunctionDecl _ _ body) => execListWith (exec fuel ctx) st body
    | some _ => some (.ok st)
    | none =>
        some (.ok (println st (str "Runtime Error: No 'main' function found.")))

/-- A vault context with no structure, for witnesses whose claims never
reach the AEAD primitive. -/
def anyCtx : VaultCtx := ⟨[], fun _ _ => none, fun _ _ => none⟩

/-- A concrete stored envelope: zero nonce, one ciphertext byte. -/
def c1Env : Str := str "ENC:000000000000000000000000:01"

/-- A vault context whose AEAD decrypts the c1Env ciphertext to a known
plaintext, for the memory-dump witness. -/
def c1Ctx : VaultCtx :=
  ⟨List.replicate 12 0, fun _ _ => none,
   fun _ c => if c = [1] then some (str "hunter2") else none⟩

/-- A state holding one secure variable storing c1Env, for the memory-dump
witness. -/
def c1St : InterpSt :=
  ⟨[[(str "pw", ⟨Value.String c1Env, true, true⟩)]], [], [], none, [], []⟩

/-! Lexer (src/src/lexer.rs). -/

/-- Token (lexer.rs lines 1-40).  The Number token carries the matched
text; the source parses it into an f64 payload (floating point, outside
the embedding), which no property below depends on. -/
inductive Token where
  | Lock | Stract | Vault | Safe | Capability | Use | Module | Func
  | If | Else | While | For | In | Return
  | Identifier (s : Str)
  | StringLiteral (s : Str)
  | Number (text : Str)
  | LeftBrace | RightBrace | LeftParen | RightParen
  | LeftBracket | RightBracket
  | Equal | EqualEqual | Greater | Less
  | Plus | Minus | Star | Slash | Dot | Range | Comma | Colon
  | EOF
  | Unknown (c : Char)
deriving Repr, DecidableEq

/-- The keyword table of read_identifier (lexer.rs lines 132-148). -/
def keywordToken (text : Str) : Token :=
  if text = str "lock" then .Lock
  else if text = str "stract" then .Stract
  else if text = str "vault" then .Vault
  else if text = str "safe" then .Safe
  else if text = str "capability" then .Capability
  else if text = str "use" then .Use
  else if text = str "module" then .Module
  else if text = str "func" then .Func
  else if text = str "if" then .If
  else if text = str "else" then .Else
  else if text = str "while" then .While
  else if text = str "for" then .For
  else if text = str "in" then .In
  else if text = str "return" then .Return
  else .Identifier text

/-- Identifier continuation class: is_alphanumeric() || '_' (lexer.rs line
127).  The source classes are the Unicode ones of Rust char; the ASCII
classes of Lean Char stand in for them, which agrees on every character a
claim below touches. -/
def isIdentChar (c : Char) : Bool := c.isAlpha || c.isDigit || c = '_'

/-- Lexer::skip_multiline_comment (lexer.rs lines 189-198) after the
opening marker is consumed: drop everything through the closing marker,
tolerating a missing one by running to end of input. -/
def skipMultiline : Str → Str
  | [] => []
  | '*' :: '/' :: rest => rest
  | _ :: rest => skipMultiline rest

/-- Length bound for skipMultiline, a prerequisite of the termination
argument of the tokenize loop below. -/
theorem skipMultiline_length_le (l : Str) : (skipMultiline l).length ≤ l.length := by
  induction l using skipMultiline.induct <;> simp [skipMultiline] <;> omega

/-- The scanning loop of Lexer::tokenize (lexer.rs lines 55-120) over the
remaining input.  Whitespace is dropped, the two comment forms are
skipped, two-character operators are matched through a one-character peek
(defaulting to the NUL of peek_next at end of input), strings run to the
closing quote or end of input, identifiers are reclassified through the
keyword table, numbers take digits with one optional interior dot (the
two-state scan of read_number, expressed as its take/drop equivalent), and
any other character becomes an Unknown token.  Every branch consumes at
least one character, so the loop needs no fuel. -/
def tokenizeLoop : Str → List Token
  | [] => []
  | c :: rest =>
    if c = ' ' ∨ c = '\t' ∨ c = '\n' ∨ c = '\r' then tokenizeLoop rest
    else if c = '{' then .LeftBrace :: tokenizeLoop rest
    else if c = '}' then .RightBrace :: tokenizeLoop rest
    else if c = '(' then .LeftParen :: tokenizeLoop rest
    else if c = ')' then .RightParen :: tokenizeLoop rest
    else if c = '[' then .LeftBracket :: tokenizeLoop rest
    else if c = ']' then .RightBracket :: tokenizeLoop rest
    else if c = '.' then
      if rest.headD '\x00' = '.' then .Range :: tokenizeLoop rest.tail
      else .Dot :: tokenizeLoop rest
    else if c = ',' then .Comma :: tokenizeLoop rest
    else if c = ':' then .Colon :: tokenizeLoop rest
    else if c = '+' then .Plus :: tokenizeLoop rest
    else if c = '-' then .Minus :: tokenizeLoop rest
    else if c = '*' then .Star :: tokenizeLoop rest
    else if c = '/' then
      if rest.headD '\x00' = '*' then tokenizeLoop (skipMultiline rest.tail)
      else if rest.headD '\x00' = '/' then
        tokenizeLoop (rest.dropWhile (fun x => x ≠ '\n'))
      else .Slash :: tokenizeLoop rest
    else if c = '=' then
      if rest.headD '\x00' = '=' then .EqualEqual :: tokenizeLoop rest.tail
      else .Equal :: tokenizeLoop rest
    else if c = '>' then .Greater :: tokenizeLoop rest
    else if c = '<' then .Less :: tokenizeLoop rest
    else if c = '"' then
      .StringLiteral (rest.takeWhile (fun x => x ≠ '"'))
        :: tokenizeLoop ((rest.dropWhile (fun x => x ≠ '"')).tail)
    else if c.isAlpha then
      keywordToken (c :: rest.takeWhile isIdentChar)
        :: tokenizeLoop (rest.dropWhile isIdentChar)
    else if c.isDigit then
      if (rest.dropWhile Char.isDigit).headD '\x00' = '.' then
        .Number (c :: rest.takeWhile Char.isDigit
            ++ '.' :: ((rest.dropWhile Char.isDigit).tail).takeWhile Char.isDigit)
          :: tokenizeLoop (((rest.dropWhile Char.isDigit).tail).dropWhile Char.isDigit)
      else
        .Number (c :: rest.takeWhile Char.isDigit)
          :: tokenizeLoop (rest.dropWhile Char.isDigit)
    else .Unknown c :: tokenizeLoop rest
termination_by l => l.length
decreasing_by
  all_goals simp_wf
  all_goals
    first
    | omega
    | (have h1 : (rest.dropWhile (fun x => !decide (x = '\n'))).length ≤ rest.length :=
         List.IsSuffix.length_le (List.dropWhile_suffix _)
       have h2 : (rest.dropWhile (fun x => !decide (x = '"'))).length ≤ rest.length :=
         List.IsSuffix.length_le (List.dropWhile_suffix _)
       have h3 : (rest.dropWhile isIdentChar).length ≤ rest.length :=
         List.IsSuffix.length_le (List.dropWhile_suffix _)
       have h4 : (rest.dropWhile Char.isDigit).length ≤ rest.length :=
         List.IsSuffix.length_le (List.dropWhile_suffix _)
       have h5 := skipMultiline_length_le rest.tail
       have h6 : rest.tail.length ≤ rest.length := by
         cases rest <;> simp
       have h7 := List.length_tail (rest.dropWhile (fun x => !decide (x = '"')))
       have h8 : ((rest.dropWhile Char.isDigit).tail.dropWhile Char.isDigit).length
           ≤ (rest.dropWhile Char.isDigit).tail.length :=
         List.IsSuffix.length_le (List.dropWhile_suffix _)
       have h9 := List.length_tail (rest.dropWhile Char.isDigit)
       omega)

/-- Lexer::tokenize (lexer.rs lines 55-123): the scanning loop followed by
exactly one trailing end marker. -/
def tokenize (input : Str) : List Token := tokenizeLoop input ++ [.EOF]

/-! Theorems. -/

/-! Auxiliary facts about splitting and hex coding, used for the vault
round-trip. -/

theorem rustSplit_ne_nil (sep : Char) (l : Str) : rustSplit sep l ≠ [] := by
  cases l with
  | nil => simp [rustSplit]
  | cons c rest =>
    by_cases h : c = sep <;> simp [rustSplit, h]

theorem rustSplit_append_sep (sep : Char) (a b : Str) (ha : sep ∉ a) :
    rustSplit sep (a ++ sep :: b) = a :: rustSplit sep b := by
  induction a with
  | nil => simp [rustSplit]
  | cons c rest ih =>
    have hc : c ≠ sep := by
      intro h; exact ha (by simp [h])
    have hrest : sep ∉ rest := fun h => ha (List.mem_cons_of_mem _ h)
    have h2 : rustSplit sep ((c :: rest) ++ sep :: b)
        = (c :: (rustSplit sep (rest ++ sep :: b)).headD [])
          :: (rustSplit sep (rest ++ sep :: b)).tail := by
      simp [rustSplit, hc]
    rw [h2, ih hrest]
    simp

theorem rustSplit_no_sep (sep : Char) (a : Str) (ha : sep ∉ a) :
    rustSplit sep a = [a] := by
  induction a with
  | nil => simp [rustSplit]
  | cons c rest ih =>
    have hc : c ≠ sep := by
      intro h; exact ha (by simp [h])
    have hrest : sep ∉ rest := fun h => ha (List.mem_cons_of_mem _ h)
    have h2 : rustSplit sep (c :: rest)
        = (c :: (rustSplit sep rest).headD []) :: (rustSplit sep rest).tail := by
      simp [rustSplit, hc]
    rw [h2, ih hrest]
    simp

theorem hexDigitChar_ne_colon (n : Nat) : hexDigitChar n ≠ ':' := by
  unfold hexDigitChar
  split <;> decide

theorem colon_not_mem_hex_encode (bs : List Nat) : ':' ∉ hex_encode bs := by
  induction bs with
  | nil => simp [hex_encode]
  | cons b rest ih =>
    intro h
    simp only [hex_encode, List.mem_cons] at h
    rcases h with h | h | h
    · exact hexDigitChar_ne_colon _ h.symm
    · exact hexDigitChar_ne_colon _ h.symm
    · exact ih h

theorem hexDigitVal_hexDigitChar (n : Nat) (h : n < 16) :
    hexDigitVal (hexDigitChar n) = some n := by
  interval_cases n <;> decide

theorem hex_decode_checked_hex_encode (bs : List Nat) (h : ∀ b ∈ bs, b < 256) :
    hex_decode_checked (hex_encode bs) = some bs := by
  induction bs with
  | nil => simp [hex_encode, hex_decode_checked]
  | cons b rest ih =>
    have hb : b < 256 := h b (by simp)
    have hdiv : b / 16 < 16 := by omega
    have hmod : b % 16 < 16 := Nat.mod_lt _ (by norm_num)
    have hrest : ∀ x ∈ rest, x < 256 := fun x hx => h x (by simp [hx])
    simp only [hex_encode, hex_decode_checked,
      hexDigitVal_hexDigitChar _ hdiv, hexDigitVal_hexDigitChar _ hmod,
      ih hrest, Option.bind_eq_bind, Option.some_bind]
    have : 16 * (b / 16) + b % 16 = b := by omega
    simp [this]

theorem hex_decode_hex_encode (bs : List Nat) (h : ∀ b ∈ bs, b < 256) :
    hex_decode (hex_encode bs) = bs := by
  simp [hex_decode, hex_decode_checked_hex_encode bs h]

theorem rustSplit_envelope (ctx : VaultCtx) (s : Str) (ct : List Nat)
    (henc : ctx.aeadEnc ctx.nonce s = some ct) :
    rustSplit ':' (encrypt_vault ctx s)
      = [str "ENC", hex_encode ctx.nonce, hex_encode ct] := by
  have hE : encrypt_vault ctx s
      = (str "ENC") ++ ':' :: (hex_encode ctx.nonce ++ ':' :: hex_encode ct) := by
    simp [encrypt_vault, henc, str]
  rw [hE, rustSplit_append_sep ':' (str "ENC") _ (by decide),
      rustSplit_append_sep ':' _ _ (colon_not_mem_hex_encode _),
      rustSplit_no_sep ':' _ (colon_not_mem_hex_encode _)]

/-- C3: for every string s (the empty string and strings containing the
envelope tag literally included), decrypting the envelope produced by
encrypting s under the vault mechanism with the same key yields s again.
The AEAD primitive (Aes256Gcm under the key of get_key) is external crate
code, abstracted by the VaultCtx hypotheses: the nonce drawn for the
encryption has 12 bytes, and decrypting the produced ciphertext under the
same nonce recovers s.  Everything else of encrypt_vault / decrypt_vault
(envelope formatting, colon split, hex coding, nonce length check) is
embedded from interpreter.rs lines 105-145 and proved to round-trip. -/
theorem c3_vault_roundtrip (ctx : VaultCtx) (s : Str) (ct : List Nat)
    (hn : ctx.nonce.length = 12)
    (hnb : ∀ b ∈ ctx.nonce, b < 256)
    (henc : ctx.aeadEnc ctx.nonce s = some ct)
    (hctb : ∀ b ∈ ct, b < 256)
    (hdec : ctx.aeadDec ctx.nonce ct = some s) :
    decrypt_vault ctx (encrypt_vault ctx s) = s := by
  unfold decrypt_vault
  rw [rustSplit_envelope ctx s ct henc]
  simp [hex_decode_hex_encode _ hnb, hex_decode_hex_encode _ hctb, hn, hdec]

theorem c3_vault_roundtrip_witness :
    decrypt_vault c3Ctx (encrypt_vault c3Ctx (str "hi")) = str "hi" :=
  c3_vault_roundtrip c3Ctx (str "hi") [104, 105]
    (by decide) (by decide) (by decide) (by decide) (by decide)

/-! Facts about variable reads (claim C10). -/

theorem get_var_of_lookup (ctx : VaultCtx) (scopes : List Scope) (name : Str)
    (entry : VarEntry) (h : lookupVar scopes name = some entry) :
    get_var ctx scopes name =
      match entry.value with
      | .String s =>
          if (str "ENC:").isPrefixOf s then Value.String (decrypt_vault ctx s)
          else entry.value
      | _ => entry.value := by
  induction scopes with
  | nil => simp [lookupVar] at h
  | cons scope rest ih =>
    rw [lookupVar] at h
    cases hl : lookupEntry scope name with
    | some e =>
      rw [hl] at h
      simp only [Option.some.injEq] at h
      subst h
      simp [get_var, hl]
    | none =>
      rw [hl] at h
      simpa [get_var, hl] using ih h

/-- C10: variable reads detect the encryption envelope solely by the
stored string's ENC: prefix, never by the is_secure flag: any entry whose
stored value is a string with that prefix is routed through decrypt_vault
on read (first part, is_secure left fully unconstrained); in particular a
non-secure variable whose stored value is the plain five-character string
ENC:x reads back as the decryption sentinel ERROR_FORMAT, not as the
stored string (second part). -/
theorem c10_envelope_detection_by_tag_only :
    (∀ (ctx : VaultCtx) (scopes : List Scope) (name : Str)
        (entry : VarEntry) (s : Str),
      lookupVar scopes name = some entry →
      entry.value = Value.String s →
      (str "ENC:").isPrefixOf s = true →
      get_var ctx scopes name = Value.String (decrypt_vault ctx s))
    ∧ (∀ (ctx : VaultCtx) (scopes : List Scope) (name : Str)
        (entry : VarEntry),
      lookupVar scopes name = some entry →
      entry.is_secure = false →
      entry.value = Value.String (str "ENC:x") →
      get_var ctx scopes name = Value.String (str "ERROR_FORMAT")
        ∧ get_var ctx scopes name ≠ entry.value) := by
  constructor
  · intro ctx scopes name entry s h hv hp
    rw [get_var_of_lookup ctx scopes name entry h, hv]
    simp [hp]
  · intro ctx scopes name entry h _ hv
    have hformat : decrypt_vault ctx (str "ENC:x") = str "ERROR_FORMAT" := rfl
    have hpre : (str "ENC:").isPrefixOf (str "ENC:x") = true := by decide
    have hg := get_var_of_lookup ctx scopes name entry h
    rw [hv] at hg
    simp only [hpre, if_true, hformat] at hg
    refine ⟨hg, ?_⟩
    rw [hg, hv]
    intro hEq
    injection hEq with hEq'
    exact absurd hEq' (by decide)

theorem c10_envelope_detection_witness :
    get_var anyCtx [[(str "v", ⟨Value.String (str "ENC:x"), true, false⟩)]]
        (str "v")
      = Value.String (str "ERROR_FORMAT") :=
  (c10_envelope_detection_by_tag_only.2 anyCtx
    [[(str "v", ⟨Value.String (str "ENC:x"), true, false⟩)]] (str "v")
    ⟨Value.String (str "ENC:x"), true, false⟩ rfl rfl rfl).1

/-! Facts about binary arithmetic (claim C5). -/

/-- C5 counterexample: evaluating the division of Integer 1 by Integer 0
is not defined: the source executes the Rust expression a / b on i64,
which panics for a zero divisor in every build profile, aborting the
process (the none result); the claim asserts evaluation is defined and
total "including for a zero (or any) Integer divisor". -/
theorem c5_div_by_zero_counterexample :
    eval_binary_op (Value.Integer 1) (str "/") (Value.Integer 0) = none := rfl

theorem tmod_neg_left (x c : Int) : (-x).tmod c = -(x.tmod c) := by
  have e1 := Int.tdiv_add_tmod x c
  have e2 := Int.tdiv_add_tmod (-x) c
  rw [Int.neg_tdiv] at e2
  linarith

theorem tmod_abs_lt (a b : Int) (hb : b ≠ 0) : |a.tmod b| < |b| := by
  have key : ∀ c : Int, 0 < c → ∀ x : Int, |x.tmod c| < c := by
    intro c hc x
    have h1 : x.tmod c < c := Int.tmod_lt_of_pos x hc
    have h2 : (-x).tmod c < c := Int.tmod_lt_of_pos (-x) hc
    rw [tmod_neg_left] at h2
    rw [abs_lt]
    constructor <;> linarith
  rcases hb.lt_or_lt with h | h
  · have hk := key (-b) (by linarith) a
    rw [Int.tmod_neg] at hk
    rwa [abs_of_neg h]
  · have hk := key b h a
    rwa [abs_of_pos h]

theorem tmod_nonpos_of_nonpos (a b : Int) (ha : a ≤ 0) : a.tmod b ≤ 0 := by
  have h := Int.tmod_nonneg b (by linarith : (0 : Int) ≤ -a)
  rw [tmod_neg_left] at h
  linarith

/-- C5 amended: on two Integer operands every operator among + - * / > <
== is handled; +, -, * follow standard semantics whenever the exact result
fits in i64 (outside that range the Rust arithmetic panics in the debug
profile and wraps in release, so nothing more is claimed), comparisons are
total and decide the corresponding order relation, and division follows
standard truncating-toward-zero semantics - characterized by the quotient
/ remainder identity with a remainder smaller than the divisor and
carrying the dividend's sign - except that a zero divisor (or the
overflowing i64Min / -1) panics and aborts instead of evaluating, contrary
to the original claim's "including for a zero (or any) Integer divisor". -/
theorem c5_integer_binop_semantics :
    (∀ a b : Int, i64Min ≤ a + b → a + b ≤ i64Max →
      eval_binary_op (Value.Integer a) (str "+") (Value.Integer b)
        = some (Value.Integer (a + b)))
    ∧ (∀ a b : Int, i64Min ≤ a - b → a - b ≤ i64Max →
      eval_binary_op (Value.Integer a) (str "-") (Value.Integer b)
        = some (Value.Integer (a - b)))
    ∧ (∀ a b : Int, i64Min ≤ a * b → a * b ≤ i64Max →
      eval_binary_op (Value.Integer a) (str "*") (Value.Integer b)
        = some (Value.Integer (a * b)))
    ∧ (∀ a b : Int, b ≠ 0 → ¬(a = i64Min ∧ b = -1) →
      ∃ q r : Int,
        eval_binary_op (Value.Integer a) (str "/") (Value.Integer b)
          = some (Value.Integer q)
        ∧ a = b * q + r ∧ |r| < |b|
        ∧ (0 ≤ a → 0 ≤ r) ∧ (a ≤ 0 → r ≤ 0))
    ∧ (∀ a : Int,
      eval_binary_op (Value.Integer a) (str "/") (Value.Integer 0) = none)
    ∧ (∀ a b : Int, ∃ v : Bool,
      eval_binary_op (Value.Integer a) (str ">") (Value.Integer b)
        = some (Value.Boolean v) ∧ (v = true ↔ a > b))
    ∧ (∀ a b : Int, ∃ v : Bool,
      eval_binary_op (Value.Integer a) (str "<") (Value.Integer b)
        = some (Value.Boolean v) ∧ (v = true ↔ a < b))
    ∧ (∀ a b : Int, ∃ v : Bool,
      eval_binary_op (Value.Integer a) (str "==") (Value.Integer b)
        = some (Value.Boolean v) ∧ (v = true ↔ a = b)) := by
  refine ⟨?_, ?_, ?_, ?_, ?_, ?_, ?_, ?_⟩
  · intro a b h1 h2
    simp [eval_binary_op, fitsI64, h1, h2]
  · intro a b h1 h2
    simp [eval_binary_op, str, fitsI64, h1, h2]
  · intro a b h1 h2
    simp [eval_binary_op, str, fitsI64, h1, h2]
  · intro a b hb hov
    refine ⟨a.tdiv b, a.tmod b, ?_, ?_, tmod_abs_lt a b hb, ?_, ?_⟩
    · simp [eval_binary_op, str, hb, hov]
    · have := Int.tdiv_add_tmod a b
      linarith
    · intro ha; exact Int.tmod_nonneg b ha
    · intro ha; exact tmod_nonpos_of_nonpos a b ha
  · intro a
    simp [eval_binary_op, str]
  · intro a b
    exact ⟨decide (a > b), by simp [eval_binary_op, str], by simp⟩
  · intro a b
    exact ⟨decide (a < b), by simp [eval_binary_op, str], by simp⟩
  · intro a b
    exact ⟨decide (a = b), by simp [eval_binary_op, str], by simp⟩

theorem c5_integer_binop_semantics_witness :
    eval_binary_op (Value.Integer (-7)) (str "/") (Value.Integer 2)
      = some (Value.Integer (-3)) := by
  obtain ⟨q, r, hq, hsum, habs, _, hsgn⟩ :=
    (c5_integer_binop_semantics.2.2.2.1) (-7) 2 (by decide) (by decide)
  have hr : r ≤ 0 := hsgn (by norm_num)
  have hq3 : q = -3 := by
    rw [show |(2 : Int)| = 2 by norm_num, abs_lt] at habs
    omega
  rw [hq, hq3]

/-! Facts about immutable (lock) variables (claim C4). -/

theorem set_var_locked (ctx : VaultCtx) (scopes : List Scope) (name : Str)
    (v : Value) (entry : VarEntry)
    (h : lookupVar scopes name = some entry)
    (him : entry.is_mutable = false) :
    set_var ctx scopes name v
      = (scopes, str "Runtime Error: Cannot assign to lock (constant) '"
          ++ name ++ str "'." ++ ['\n']) := by
  induction scopes with
  | nil => simp [lookupVar] at h
  | cons scope rest ih =>
    rw [lookupVar] at h
    cases hl : lookupEntry scope name with
    | some e =>
      rw [hl] at h
      simp only [Option.some.injEq] at h
      subst h
      simp [set_var, hl, him]
    | none =>
      rw [hl] at h
      have hr := ih h
      simp [set_var, hl, hr]

/-- C4: assigning to a variable declared with the immutable qualifier
(lock) never changes anything.  First part: any sequence of assignment
attempts (already-evaluated right-hand values, arbitrary) through set_var
leaves the whole frame stack - hence the variable's stored entry -
unchanged, and prints exactly one cannot-assign-to-lock diagnostic per
attempt while continuing (set_var returns normally).  Second part, at
statement level: executing an Assignment statement whose right-hand side
evaluated to some value in state st1, with the name resolving to an
immutable entry, yields a normal (non-halting) successor state identical
to st1 except for the appended diagnostic line. -/
theorem c4_lock_assignment_unchanged :
    (∀ (ctx : VaultCtx) (scopes : List Scope) (name : Str)
        (entry : VarEntry) (vs : List Value),
      lookupVar scopes name = some entry →
      entry.is_mutable = false →
      vs.foldl (fun acc v =>
          let r := set_var ctx acc.1 name v
          (r.1, acc.2 ++ r.2)) (scopes, ([] : Str))
        = (scopes,
           (List.map (fun _ : Value =>
             str "Runtime Error: Cannot assign to lock (constant) '"
               ++ name ++ str "'." ++ ['\n']) vs).flatten))
    ∧ (∀ (fuel : Nat) (ctx : VaultCtx) (st : InterpSt) (name : Str)
        (e : Expression) (v : Value) (st1 : InterpSt) (entry : VarEntry),
      st.last_return = none →
      eval fuel ctx st e = some (.ok v st1) →
      lookupVar st1.scopes name = some entry →
      entry.is_mutable = false →
      exec (fuel + 1) ctx st (.Assignment name e)
        = some (.ok { st1 with
            output := st1.output
              ++ (str "Runtime Error: Cannot assign to lock (constant) '"
                  ++ name ++ str "'." ++ ['\n']) })) := by
  constructor
  · intro ctx scopes name entry vs h him
    have key : ∀ (vs' : List Value) (out : Str),
        vs'.foldl (fun acc v =>
            let r := set_var ctx acc.1 name v
            (r.1, acc.2 ++ r.2)) (scopes, out)
          = (scopes,
             out ++ (List.map (fun _ : Value =>
               str "Runtime Error: Cannot assign to lock (constant) '"
                 ++ name ++ str "'." ++ ['\n']) vs').flatten) := by
      intro vs'
      induction vs' with
      | nil => intro out; simp
      | cons v vs'' ih =>
        intro out
        simp only [List.foldl_cons, set_var_locked ctx scopes name v entry h him,
          List.map_cons, List.flatten_cons]
        rw [ih]
        simp
    simpa using key vs []
  · intro fuel ctx st name e v st1 entry hlr hev h him
    simp only [exec, execStep, hlr, Option.isSome_none, Bool.false_eq_true,
      if_false, hev]
    rw [set_var_locked ctx st1.scopes name v entry h him]

theorem c4_lock_assignment_witness :
    [Value.Integer 2, Value.Integer 3].foldl (fun acc v =>
        let r := set_var anyCtx acc.1 (str "k") v
        (r.1, acc.2 ++ r.2))
      ([[(str "k", ⟨Value.Integer 1, false, false⟩)]], ([] : Str))
    = ([[(str "k", ⟨Value.Integer 1, false, false⟩)]],
       (List.map (fun _ : Value =>
         str "Runtime Error: Cannot assign to lock (constant) '"
           ++ str "k" ++ str "'." ++ ['\n']) [Value.Integer 2, Value.Integer 3]).flatten) :=
  c4_lock_assignment_unchanged.1 anyCtx
    [[(str "k", ⟨Value.Integer 1, false, false⟩)]] (str "k")
    ⟨Value.Integer 1, false, false⟩ [Value.Integer 2, Value.Integer 3] rfl rfl

/-! The capability gate (claim C2). -/

/-- C2: for every qualified call whose target contains a dot, an
undeclared service prefix other than Sys and Array makes the process
print the security alert and terminate with exit(1) (the halt result,
carrying a non-zero status in main.rs) before any output of the call
itself is produced - the state output grows by exactly the alert line
and nothing of the call is evaluated (first part).  A declared prefix
proceeds normally (second part: IO.print with the IO capability prints
its argument and yields Null), and the two exempt prefixes proceed even
with no declaration at all (third and fourth part: Sys.memory_dump and
Array.len run against an arbitrary capability set). -/
theorem c2_capability_gate :
    (∀ (fuel : Nat) (ctx : VaultCtx) (st : InterpSt) (target : Str)
        (args : List Expression),
      '.' ∈ target →
      ¬ serviceOf target ∈ st.capabilities →
      serviceOf target ≠ str "Sys" →
      serviceOf target ≠ str "Array" →
      handle_function_call (fuel + 1) ctx st target args
        = some (.halt (println st (securityAlertLine (serviceOf target) target))))
    ∧ (∀ (fuel : Nat) (ctx : VaultCtx) (st : InterpSt) (s : Str),
      str "IO" ∈ st.capabilities →
      handle_function_call (fuel + 2) ctx st (str "IO.print") [.LiteralStr s]
        = some (.ok .Null (println st s)))
    ∧ (∀ (fuel : Nat) (ctx : VaultCtx) (st : InterpSt),
      handle_function_call (fuel + 1) ctx st (str "Sys.memory_dump") []
        = some (.ok .Null st))
    ∧ (∀ (fuel : Nat) (ctx : VaultCtx) (st : InterpSt),
      handle_function_call (fuel + 1) ctx st (str "Array.len") []
        = some (.ok (.Integer 0) st)) := by
  refine ⟨?_, ?_, ?_, ?_⟩
  · intro fuel ctx st target args hdot hmem hsys harr
    simp [handle_function_call, handleStep, hdot, hmem, hsys, harr]
  · intro fuel ctx st s hio
    have hserv : serviceOf (str "IO.print") = str "IO" := rfl
    simp [handle_function_call, handleStep, hserv, hio, evalArgsWith, eval,
      evalStep, joinSpace, display,
      (show '.' ∈ str "IO.print" from by decide)]
  · intro fuel ctx st
    have hserv : serviceOf (str "Sys.memory_dump") = str "Sys" := rfl
    simp [handle_function_call, handleStep, hserv,
      (show '.' ∈ str "Sys.memory_dump" from by decide),
      (show str "Sys.memory_dump" ≠ str "IO.print" from by decide),
      (show str "Sys.memory_dump" ≠ str "IO.input" from by decide),
      (show str "Sys.memory_dump" ≠ str "Array.len" from by decide),
      (show str "Sys.memory_dump" ≠ str "Array.push" from by decide)]
  · intro fuel ctx st
    have hserv : serviceOf (str "Array.len") = str "Array" := rfl
    simp [handle_function_call, handleStep, hserv,
      (show '.' ∈ str "Array.len" from by decide),
      (show str "Array.len" ≠ str "IO.print" from by decide),
      (show str "Array.len" ≠ str "IO.input" from by decide)]

theorem c2_capability_gate_witness :
    handle_function_call 1 anyCtx ⟨[[]], [], [], none, [], []⟩
        (str "Foo.bar") []
      = some (.halt (println ⟨[[]], [], [], none, [], []⟩
          (securityAlertLine (serviceOf (str "Foo.bar")) (str "Foo.bar")))) :=
  c2_capability_gate.1 0 anyCtx ⟨[[]], [], [], none, [], []⟩ (str "Foo.bar") []
    (by decide) (by decide) (by decide) (by decide)

/-! Array.push never mutates the caller's binding (claim C8). -/

/-- C8: a call Array.push(a, x) whose first argument is a variable bound
to an Array value returns a new array value with x appended, while the
final interpreter state is exactly the state the call started from (the
second argument is hypothesized to evaluate without touching the state):
in particular the caller's binding for the variable still holds the
original, unextended array, so the appended element is observable only
by re-assigning the result. -/
theorem c8_array_push_pure :
    ∀ (fuel : Nat) (ctx : VaultCtx) (st : InterpSt) (x : Str) (e : Expression)
      (entry : VarEntry) (l : List Value) (v : Value),
      lookupVar st.scopes x = some entry →
      entry.value = Value.Array l →
      eval (fuel + 1) ctx st e = some (.ok v st) →
      handle_function_call (fuel + 2) ctx st (str "Array.push") [.Variable x, e]
        = some (.ok (Value.Array (l ++ [v])) st)
        ∧ lookupVar st.scopes x = some entry := by
  intro fuel ctx st x e entry l v hlook hval hev
  have hserv : serviceOf (str "Array.push") = str "Array" := rfl
  have hget : get_var ctx st.scopes x = Value.Array l := by
    rw [get_var_of_lookup ctx st.scopes x entry hlook, hval]
  have hvar : eval (fuel + 1) ctx st (.Variable x)
      = some (.ok (Value.Array l) st) := by
    simp [eval, evalStep, hget]
  refine ⟨?_, hlook⟩
  simp [handle_function_call, handleStep, hserv, hvar, hev,
    (show '.' ∈ str "Array.push" from by decide),
    (show str "Array.push" ≠ str "IO.print" from by decide),
    (show str "Array.push" ≠ str "IO.input" from by decide),
    (show str "Array.push" ≠ str "Array.len" from by decide)]

theorem c8_array_push_witness :
    handle_function_call 2 anyCtx
        ⟨[[(str "a", ⟨Value.Array [Value.Integer 1], true, false⟩)]],
          [], [], none, [], []⟩
        (str "Array.push") [.Variable (str "a"), .LiteralInt 2]
      = some (.ok (Value.Array ([Value.Integer 1] ++ [Value.Integer 2]))
          ⟨[[(str "a", ⟨Value.Array [Value.Integer 1], true, false⟩)]],
            [], [], none, [], []⟩) :=
  (c8_array_push_pure 0 anyCtx
    ⟨[[(str "a", ⟨Value.Array [Value.Integer 1], true, false⟩)]],
      [], [], none, [], []⟩
    (str "a") (.LiteralInt 2) ⟨Value.Array [Value.Integer 1], true, false⟩
    [Value.Integer 1] (Value.Integer 2) rfl rfl rfl).1

/-! Sys.memory_dump reads through get_var and therefore decrypts
(claim C1). -/

/-- C1 (the code contradicts the spec here): Sys.memory_dump on a name
whose stored value is an ENC:-tagged string prints the DECRYPTED value -
memory_dump fetches the value through get_var (interpreter.rs line 383),
which transparently decrypts, so the RAM DUMP line shows exactly the same
decrypted string that an ordinary Variable read yields (second conjunct),
not the raw envelope-encoded stored form that the specification says this
diagnostic intentionally exposes. -/
theorem c1_memory_dump_prints_decrypted :
    ∀ (fuel : Nat) (ctx : VaultCtx) (st : InterpSt) (name : Str)
      (entry : VarEntry) (s : Str),
      lookupVar st.scopes name = some entry →
      entry.value = Value.String s →
      (str "ENC:").isPrefixOf s = true →
      handle_function_call (fuel + 1) ctx st (str "Sys.memory_dump")
          [.Variable name]
        = some (.ok .Null
            (println st (ramDumpLine name (Value.String (decrypt_vault ctx s)))))
        ∧ get_var ctx st.scopes name = Value.String (decrypt_vault ctx s) := by
  intro fuel ctx st name entry s hlook hval hpre
  have hserv : serviceOf (str "Sys.memory_dump") = str "Sys" := rfl
  have hget : get_var ctx st.scopes name
      = Value.String (decrypt_vault ctx s) := by
    rw [get_var_of_lookup ctx st.scopes name entry hlook, hval]
    simp [hpre]
  refine ⟨?_, hget⟩
  simp [handle_function_call, handleStep, hserv, hget,
    (show '.' ∈ str "Sys.memory_dump" from by decide),
    (show str "Sys.memory_dump" ≠ str "IO.print" from by decide),
    (show str "Sys.memory_dump" ≠ str "IO.input" from by decide),
    (show str "Sys.memory_dump" ≠ str "Array.len" from by decide),
    (show str "Sys.memory_dump" ≠ str "Array.push" from by decide)]

theorem c1_memory_dump_witness :
    handle_function_call 1 c1Ctx c1St (str "Sys.memory_dump")
        [.Variable (str "pw")]
      = some (.ok .Null
          (println c1St
            (ramDumpLine (str "pw") (Value.String (str "hunter2"))))) := by
  have h := (c1_memory_dump_prints_decrypted 0 c1Ctx c1St (str "pw")
    ⟨Value.String c1Env, true, true⟩ c1Env rfl rfl (by decide)).1
  rw [h]
  rfl

/-! Silent degradation to Null (claim C6). -/

theorem get_var_of_lookup_none (ctx : VaultCtx) (scopes : List Scope)
    (name : Str) (h : lookupVar scopes name = none) :
    get_var ctx scopes name = Value.Null := by
  induction scopes with
  | nil => simp [get_var]
  | cons scope rest ih =>
    rw [lookupVar] at h
    cases hl : lookupEntry scope name with
    | some e => rw [hl] at h; exact absurd h (by simp)
    | none =>
      rw [hl] at h
      simpa [get_var, hl] using ih h

/-- C6 counterexample: the claim says a call to a name matching no user
function and no built-in evaluates to Null with no diagnostic, in every
evaluation state; but the qualified name Net.fetch, in a state with no
declared capabilities, instead prints a SECURITY ALERT diagnostic and
terminates the process (the capability gate fires before call
resolution). -/
theorem c6_undeclared_dotted_call_counterexample :
    handle_function_call 1 anyCtx ⟨[[]], [], [], none, [], []⟩
        (str "Net.fetch") []
      = some (.halt (println ⟨[[]], [], [], none, [], []⟩
          (securityAlertLine (str "Net") (str "Net.fetch")))) := rfl

/-- C6 amended: out-of-range array indexing (the i64-as-usize cast sends
negative indices out of range too), map indexing with an absent key,
binary operators on operand-type combinations outside the supported table
(neither operand a string and not both integers), reading an unbound
variable, and calling an unresolvable name each produce Null with no
diagnostic and no state change - provided, for a call, that a dotted
target first passes the capability gate (an undeclared non-exempt prefix
instead halts the process with a security alert, see the counterexample). -/
theorem c6_amended_silent_null :
    (∀ (fuel : Nat) (ctx : VaultCtx) (st st1 st2 : InterpSt)
        (t i : Expression) (arr : List Value) (n : Int),
      eval fuel ctx st t = some (.ok (Value.Array arr) st1) →
      eval fuel ctx st1 i = some (.ok (Value.Integer n) st2) →
      arr.length ≤ usizeOfI64 n →
      eval (fuel + 1) ctx st (.Index t i) = some (.ok Value.Null st2))
    ∧ (∀ (fuel : Nat) (ctx : VaultCtx) (st st1 st2 : InterpSt)
        (t i : Expression) (m : List (Str × Value)) (iv : Value),
      eval fuel ctx st t = some (.ok (Value.Map m) st1) →
      eval fuel ctx st1 i = some (.ok iv st2) →
      mapGet m (display iv) = none →
      eval (fuel + 1) ctx st (.Index t i) = some (.ok Value.Null st2))
    ∧ (∀ (op : Str) (l r : Value),
      (∀ a, l ≠ Value.String a) →
      (∀ b, r ≠ Value.String b) →
      ¬(∃ a b, l = Value.Integer a ∧ r = Value.Integer b) →
      eval_binary_op l op r = some Value.Null)
    ∧ (∀ (fuel : Nat) (ctx : VaultCtx) (st : InterpSt) (name : Str),
      lookupVar st.scopes name = none →
      eval (fuel + 1) ctx st (.Variable name) = some (.ok Value.Null st))
    ∧ (∀ (fuel : Nat) (ctx : VaultCtx) (st : InterpSt) (target : Str)
        (args : List Expression),
      ¬ '.' ∈ target →
      lookupFn st.functions target = none →
      handle_function_call (fuel + 2) ctx st target args
        = some (.ok Value.Null st))
    ∧ (∀ (fuel : Nat) (ctx : VaultCtx) (st : InterpSt) (target : Str)
        (args : List Expression),
      '.' ∈ target →
      (serviceOf target ∈ st.capabilities ∨ serviceOf target = str "Sys"
        ∨ serviceOf target = str "Array") →
      target ≠ str "IO.print" → target ≠ str "IO.input" →
      target ≠ str "Array.len" → target ≠ str "Array.push" →
      target ≠ str "Sys.memory_dump" →
      lookupFn st.functions target = none →
      handle_function_call (fuel + 2) ctx st target args
        = some (.ok Value.Null st)) := by
  refine ⟨?_, ?_, ?_, ?_, ?_, ?_⟩
  · intro fuel ctx st st1 st2 t i arr n ht hi hlen
    have hno : ¬ usizeOfI64 n < arr.length := by omega
    simp [eval, evalStep, ht, hi, indexValue, hno]
  · intro fuel ctx st st1 st2 t i m iv ht hi hget
    simp [eval, evalStep, ht, hi, indexValue, hget]
  · intro op l r hls hrs hii
    cases l <;> cases r <;>
      first
        | (exfalso; exact hls _ rfl)
        | (exfalso; exact hrs _ rfl)
        | (exfalso; exact hii ⟨_, _, rfl, rfl⟩)
        | simp [eval_binary_op]
  · intro fuel ctx st name h
    simp [eval, evalStep, get_var_of_lookup_none ctx st.scopes name h]
  · intro fuel ctx st target args hdot hfn
    simp [handle_function_call, handleStep, hdot, call_user, callUserStep, hfn]
  · intro fuel ctx st target args hdot hcap h1 h2 h3 h4 h5 hfn
    have hgate : ¬(¬ serviceOf target ∈ st.capabilities
        ∧ serviceOf target ≠ str "Sys" ∧ serviceOf target ≠ str "Array") := by
      rcases hcap with h | h | h <;> simp [h]
    simp [handle_function_call, handleStep, hdot, hgate, h1, h2, h3, h4, h5,
      call_user, callUserStep, hfn]

theorem c6_amended_silent_null_witness :
    eval 3 anyCtx ⟨[[]], [], [], none, [], []⟩
        (.Index (.Array [.LiteralInt 7]) (.LiteralInt 3))
      = some (.ok Value.Null ⟨[[]], [], [], none, [], []⟩) :=
  c6_amended_silent_null.1 2 anyCtx
    ⟨[[]], [], [], none, [], []⟩ ⟨[[]], [], [], none, [], []⟩
    ⟨[[]], [], [], none, [], []⟩
    (.Array [.LiteralInt 7]) (.LiteralInt 3) [Value.Integer 7] 3
    rfl rfl (by decide)

/-! The for statement (claim C7). -/

theorem lookupEntry_cons (p : Str × VarEntry) (rest : Scope) (name : Str) :
    lookupEntry (p :: rest) name
      = if p.1 = name then some p.2 else lookupEntry rest name := by
  by_cases h : p.1 = name <;> simp [lookupEntry, List.find?, h]

theorem lookupEntry_scopeSet_self (scope : Scope) (name : Str) (e : VarEntry)
    (h : (lookupEntry scope name).isSome) :
    lookupEntry (scopeSet scope name e) name = some e := by
  induction scope with
  | nil => simp [lookupEntry] at h
  | cons p rest ih =>
    by_cases hp : p.1 = name
    · simp [scopeSet, lookupEntry_cons, hp]
    · rw [lookupEntry_cons, if_neg hp] at h
      simp only [scopeSet, List.map_cons, if_neg hp]
      rw [lookupEntry_cons, if_neg hp]
      exact ih h

theorem lookupEntry_scopeInsert_self (scope : Scope) (name : Str)
    (e : VarEntry) :
    lookupEntry (scopeInsert name e scope) name = some e := by
  unfold scopeInsert
  by_cases h : (lookupEntry scope name).isSome
  · rw [if_pos h]
    exact lookupEntry_scopeSet_self scope name e h
  · rw [if_neg h]
    induction scope with
    | nil => simp [lookupEntry_cons]
    | cons p rest ih =>
      by_cases hp : p.1 = name
      · exfalso; apply h; rw [lookupEntry_cons, if_pos hp]; rfl
      · rw [lookupEntry_cons, if_neg hp] at h
        rw [List.cons_append, lookupEntry_cons, if_neg hp]
        exact ih h

theorem get_var_head (ctx : VaultCtx) (scopes : List Scope) (it : Str) (i : Int)
    (h : lookupVar scopes it = some ⟨Value.Integer i, false, false⟩) :
    get_var ctx scopes it = Value.Integer i := by
  induction scopes with
  | nil => simp [lookupVar] at h
  | cons scope rest ih =>
    rw [lookupVar] at h
    cases hl : lookupEntry scope it with
    | some e =>
      rw [hl] at h
      simp only [Option.some.injEq] at h
      subst h
      simp [get_var, hl]
    | none =>
      rw [hl] at h
      simpa [get_var, hl] using ih h

theorem exec_print_iter (fuel : Nat) (ctx : VaultCtx) (st : InterpSt)
    (it : Str) (i : Int)
    (hlr : st.last_return = none)
    (hio : str "IO" ∈ st.capabilities)
    (hlook : lookupVar st.scopes it = some ⟨Value.Integer i, false, false⟩) :
    exec (fuel + 4) ctx st (.Expr (.FunctionCall (str "IO.print") [.Variable it]))
      = some (.ok (println st (intStr i))) := by
  have hvar : eval (fuel + 1) ctx st (.Variable it)
      = some (.ok (Value.Integer i) st) := by
    simp [eval, evalStep, get_var_head ctx st.scopes it i hlook]
  have hargs : evalArgsWith (eval (fuel + 1) ctx) st [.Variable it]
      = some (.ok [Value.Integer i] st) := by
    simp [evalArgsWith, hvar]
  have hcall : handle_function_call (fuel + 2) ctx st (str "IO.print")
      [.Variable it] = some (.ok Value.Null (println st (intStr i))) := by
    have hserv : serviceOf (str "IO.print") = str "IO" := rfl
    simp [handle_function_call, handleStep, hserv, hio, hargs,
      joinSpace, display,
      (show '.' ∈ str "IO.print" from by decide)]
  have heval : eval (fuel + 3) ctx st
      (.FunctionCall (str "IO.print") [.Variable it])
      = some (.ok Value.Null (println st (intStr i))) := by
    simp [eval, evalStep, hcall]
  simp [exec, execStep, hlr, heval]

theorem execFor_print_loop (fuel : Nat) (ctx : VaultCtx) (it : Str) :
    ∀ (indices : List Int) (st : InterpSt) (scope : Scope) (rest : List Scope),
      st.scopes = scope :: rest →
      st.last_return = none →
      str "IO" ∈ st.capabilities →
      execForWith (exec (fuel + 4) ctx) ctx it
          [.Expr (.FunctionCall (str "IO.print") [.Variable it])] st indices
        = some (.ok { st with
            scopes := (indices.foldl (fun sc i =>
              scopeInsert it ⟨Value.Integer i, false, false⟩ sc) scope) :: rest,
            output := st.output
              ++ (indices.map (fun i => intStr i ++ ['\n'])).flatten }) := by
  intro indices
  induction indices with
  | nil =>
    intro st scope rest hscopes hlr hio
    simp only [execForWith, List.foldl_nil, List.map_nil, List.flatten_nil,
      List.append_nil]
    rw [← hscopes]
  | cons i rest' ih =>
    intro st scope rest hscopes hlr hio
    have hdef : define_var ctx st.scopes it (Value.Integer i) false false
        = some (scopeInsert it ⟨Value.Integer i, false, false⟩ scope :: rest) := by
      rw [hscopes]; simp [define_var]
    set sc' := scopeInsert it ⟨Value.Integer i, false, false⟩ scope with hsc'
    set stI : InterpSt := { st with scopes := sc' :: rest } with hstI
    have hlook : lookupVar stI.scopes it
        = some ⟨Value.Integer i, false, false⟩ := by
      simp only [hstI, lookupVar]
      rw [lookupEntry_scopeInsert_self]
    have hexec : exec (fuel + 4) ctx stI
        (.Expr (.FunctionCall (str "IO.print") [.Variable it]))
        = some (.ok (println stI (intStr i))) :=
      exec_print_iter fuel ctx stI it i hlr hio hlook
    have hlist : execListWith (exec (fuel + 4) ctx) stI
        [.Expr (.FunctionCall (str "IO.print") [.Variable it])]
        = some (.ok (println stI (intStr i))) := by
      simp [execListWith, hexec]
    have hrec := ih (println stI (intStr i)) sc' rest rfl hlr hio
    simp only [execForWith, hdef, hlist]
    have hnr : (println stI (intStr i)).last_return.isSome = false := by
      simp [println, hlr]
    rw [hnr]
    simp only [Bool.false_eq_true, if_false]
    rw [hrec]
    simp [println, List.append_assoc]

theorem lookupEntry_foldl_insert (it : Str) :
    ∀ (indices : List Int) (scope : Scope) (j : Int),
      indices.getLast? = some j →
      lookupEntry (indices.foldl (fun sc i =>
          scopeInsert it ⟨Value.Integer i, false, false⟩ sc) scope) it
        = some ⟨Value.Integer j, false, false⟩ := by
  intro indices
  induction indices with
  | nil => intro scope j h; simp at h
  | cons i rest ih =>
    intro scope j h
    cases rest with
    | nil =>
      simp only [List.getLast?_singleton, Option.some.injEq] at h
      subst h
      rw [List.foldl_cons, List.foldl_nil]
      exact lookupEntry_scopeInsert_self scope it _
    | cons i2 rest2 =>
      rw [List.foldl_cons]
      apply ih
      rwa [List.getLast?_cons_cons] at h

theorem mkRange_getLast? (a b : Int) (h : a < b) :
    (mkRange a b).getLast? = some (b - 1) := by
  unfold mkRange
  rw [List.getLast?_map]
  have hn : (b - a).toNat = (b - a - 1).toNat + 1 := by omega
  rw [hn]
  simp only [List.range_succ, List.getLast?_concat, Option.map_some',
    Option.some.injEq]
  have hofnat : Int.ofNat ((b - a - 1).toNat) = ((b - a - 1).toNat : Int) := rfl
  rw [hofnat]
  omega

/-- C7: for a ForStatement whose bounds are the integer literals a and b,
over the body that prints the iterator, the statement executes normally
and the output grows by exactly one printed line per index of the
ascending half-open sequence a, a+1, ..., b-1 (one body execution per
index, in order; mkRange is empty when b is at most a), no frame is pushed
or popped (the frame-stack length is unchanged, and capability set,
function table, input stream and the clear pending-return signal are all
preserved), and when the range is non-empty the iterator name ends bound
in the innermost frame to the last index b-1 as an immutable, non-secure
Integer entry, having been re-declared there on each pass. -/
theorem c7_for_half_open_ascending :
    ∀ (fuel : Nat) (ctx : VaultCtx) (st : InterpSt) (it : Str) (a b : Int)
      (scope : Scope) (rest : List Scope),
      st.scopes = scope :: rest →
      st.last_return = none →
      str "IO" ∈ st.capabilities →
      ∃ st' : InterpSt,
        exec (fuel + 5) ctx st
            (.ForStatement it (.LiteralInt a) (.LiteralInt b)
              [.Expr (.FunctionCall (str "IO.print") [.Variable it])])
          = some (.ok st')
        ∧ st'.output = st.output
            ++ ((mkRange a b).map (fun i => intStr i ++ ['\n'])).flatten
        ∧ st'.scopes.length = st.scopes.length
        ∧ st'.capabilities = st.capabilities
        ∧ st'.functions = st.functions
        ∧ st'.last_return = none
        ∧ st'.stdin = st.stdin
        ∧ (a < b → lookupVar st'.scopes it
            = some ⟨Value.Integer (b - 1), false, false⟩) := by
  intro fuel ctx st it a b scope rest hscopes hlr hio
  have hstart : eval (fuel + 4) ctx st (.LiteralInt a)
      = some (.ok (Value.Integer a) st) := by simp [eval, evalStep]
  have hend : eval (fuel + 4) ctx st (.LiteralInt b)
      = some (.ok (Value.Integer b) st) := by simp [eval, evalStep]
  have hloop := execFor_print_loop fuel ctx it (mkRange a b) st scope rest
    hscopes hlr hio
  refine ⟨{ st with
      scopes := ((mkRange a b).foldl (fun sc i =>
        scopeInsert it ⟨Value.Integer i, false, false⟩ sc) scope) :: rest,
      output := st.output
        ++ ((mkRange a b).map (fun i => intStr i ++ ['\n'])).flatten },
    ?_, ?_, ?_, ?_, ?_, ?_, ?_, ?_⟩
  · have hunfold : exec (fuel + 5) ctx st
        (.ForStatement it (.LiteralInt a) (.LiteralInt b)
          [.Expr (.FunctionCall (str "IO.print") [.Variable it])])
        = execStep (eval (fuel + 4) ctx) (exec (fuel + 4) ctx)
            (execWhile (fuel + 4) ctx) ctx st
            (.ForStatement it (.LiteralInt a) (.LiteralInt b)
              [.Expr (.FunctionCall (str "IO.print") [.Variable it])]) := rfl
    rw [hunfold]
    simp only [execStep, hlr, Option.isSome_none, Bool.false_eq_true,
      if_false, hstart, hend, toI64]
    rw [hlr] at hloop
    exact hloop
  · rfl
  · simp [hscopes]
  · rfl
  · rfl
  · exact hlr
  · rfl
  · intro hab
    simp only [lookupVar]
    rw [lookupEntry_foldl_insert it (mkRange a b) scope (b - 1)
      (mkRange_getLast? a b hab)]

theorem c7_for_half_open_ascending_witness :
    ∃ st' : InterpSt,
      exec 5 anyCtx ⟨[[]], [str "IO"], [], none, [], []⟩
          (.ForStatement (str "i") (.LiteralInt 0) (.LiteralInt 5)
            [.Expr (.FunctionCall (str "IO.print") [.Variable (str "i")])])
        = some (.ok st')
      ∧ st'.output = str "0\n1\n2\n3\n4\n" := by
  obtain ⟨st', h1, h2, -, -, -, -, -, -⟩ :=
    c7_for_half_open_ascending 0 anyCtx ⟨[[]], [str "IO"], [], none, [], []⟩
      (str "i") 0 5 [] [] rfl rfl (by decide)
  refine ⟨st', h1, ?_⟩
  rw [h2]
  rfl


/-- Helper: a property closed under both branches of an if holds of the if. -/
theorem token_q_ite (p : Prop) [Decidable p] (a b : Token)
    (ha : a ≠ Token.EOF ∧ ∀ c, a ≠ Token.Unknown c)
    (hb : b ≠ Token.EOF ∧ ∀ c, b ≠ Token.Unknown c) :
    (if p then a else b) ≠ Token.EOF
      ∧ ∀ c, (if p then a else b) ≠ Token.Unknown c := by
  by_cases h : p
  · simp only [h, if_true]; exact ha
  · simp only [h, if_false]; exact hb

/-- The keyword table never yields the end marker or an Unknown token. -/
theorem keywordToken_ne (t : Str) :
    keywordToken t ≠ Token.EOF ∧ ∀ c, keywordToken t ≠ Token.Unknown c := by
  unfold keywordToken
  apply token_q_ite
  · exact ⟨by simp, fun c => by simp⟩
  apply token_q_ite
  · exact ⟨by simp, fun c => by simp⟩
  apply token_q_ite
  · exact ⟨by simp, fun c => by simp⟩
  apply token_q_ite
  · exact ⟨by simp, fun c => by simp⟩
  apply token_q_ite
  · exact ⟨by simp, fun c => by simp⟩
  apply token_q_ite
  · exact ⟨by simp, fun c => by simp⟩
  apply token_q_ite
  · exact ⟨by simp, fun c => by simp⟩
  apply token_q_ite
  · exact ⟨by simp, fun c => by simp⟩
  apply token_q_ite
  · exact ⟨by simp, fun c => by simp⟩
  apply token_q_ite
  · exact ⟨by simp, fun c => by simp⟩
  apply token_q_ite
  · exact ⟨by simp, fun c => by simp⟩
  apply token_q_ite
  · exact ⟨by simp, fun c => by simp⟩
  apply token_q_ite
  · exact ⟨by simp, fun c => by simp⟩
  apply token_q_ite
  · exact ⟨by simp, fun c => by simp⟩
  exact ⟨by simp, fun c => by simp⟩

/-- Projection of keywordToken_ne. -/
theorem keywordToken_ne_eof (t : Str) : keywordToken t ≠ Token.EOF :=
  (keywordToken_ne t).1

/-- Projection of keywordToken_ne. -/
theorem keywordToken_ne_unknown (t : Str) (c : Char) :
    keywordToken t ≠ Token.Unknown c :=
  (keywordToken_ne t).2 c

/-- The scanning loop itself never emits the end marker, and never emits
an Unknown token holding a whitespace character. -/
theorem tokenizeLoop_no_eof_no_ws (l : Str) :
    Token.EOF ∉ tokenizeLoop l
      ∧ ∀ c, (c = ' ' ∨ c = '\t' ∨ c = '\n' ∨ c = '\r') →
          Token.Unknown c ∉ tokenizeLoop l := by
  induction l using tokenizeLoop.induct
  all_goals
    first
    | (simp_all [tokenizeLoop]; done)
    | (simp_all [tokenizeLoop]
       repeat' constructor
       all_goals intro h
       all_goals
         first
         | exact keywordToken_ne_eof _ h.symm
         | exact keywordToken_ne_unknown _ _ h.symm
         | (subst h; simp_all))

/-- C9: tokenize is total over the embedded input type; for every input
the token sequence ends with the end marker, which occurs exactly once;
no token corresponds to whitespace (an Unknown token never holds a
whitespace character, and whitespace produces no token of its own, as the
two comment examples show: a line comment and a multiline comment each
tokenize to the end marker alone); and an unrecognized character such as
a commercial at becomes an Unknown token instead of an error. -/
theorem c9_tokenize_shape :
    (∀ input : Str,
        (tokenize input).getLast? = some Token.EOF
        ∧ (tokenize input).count Token.EOF = 1
        ∧ ∀ c, (c = ' ' ∨ c = '\t' ∨ c = '\n' ∨ c = '\r') →
            Token.Unknown c ∉ tokenize input)
    ∧ tokenize (str "// hi") = [Token.EOF]
    ∧ tokenize (str "/* hi */ ") = [Token.EOF]
    ∧ tokenize (str "@") = [Token.Unknown '@', Token.EOF] := by
  refine ⟨fun input => ⟨?_, ?_, ?_⟩, ?_, ?_, ?_⟩
  · unfold tokenize
    exact List.getLast?_concat _
  · unfold tokenize
    rw [List.count_append]
    rw [List.count_eq_zero.mpr (tokenizeLoop_no_eof_no_ws input).1]
    rfl
  · intro c hc
    unfold tokenize
    rw [List.mem_append]
    rintro (h | h)
    · exact (tokenizeLoop_no_eof_no_ws input).2 c hc h
    · simp at h
  · simp [tokenize, str, tokenizeLoop]
  · simp [tokenize, str, tokenizeLoop, skipMultiline]
  · simp [tokenize, str, tokenizeLoop]

/-- Witness for C9 at concrete inputs: a one-space input produces no
Unknown space token, and the at-sign input produces its Unknown token
followed by the end marker. -/
theorem c9_tokenize_witness :
    Token.Unknown ' ' ∉ tokenize (str " ")
      ∧ tokenize (str "@") = [Token.Unknown '@', Token.EOF] :=
  ⟨(c9_tokenize_shape.1 (str " ")).2.2 ' ' (Or.inl rfl),
   c9_tokenize_shape.2.2.2⟩

end Nodestract
